import Mathlib

/-!
Verification of the flake8-eyeo style checker (src/flake8-eyeo/flake8_eyeo.py).

The Python program is shallowly embedded: each checker function is translated
into an executable Lean function over an explicit model of the AST nodes,
token tuples and physical lines it inspects.  Positions are modelled by the
index of a statement inside its block (for the tree checks) or by the token's
(row, column) start (for the token checks); messages are modelled by an
inductive `Msg` whose `render` function produces the exact message strings of
the source.
-/

set_option linter.unusedVariables false

namespace Eyeo

/-- Python values that the constant evaluator (`evaluate`, flake8_eyeo.py
lines 48-52) can produce for the expression forms modelled here: int and str
literals, the booleans and `None` exposed by the restricted namespace of
`is_const`, tuple/list displays, and the fresh `object()` instances a
`collections.defaultdict(object, ...)` namespace creates for unknown names
(distinguished by a creation counter). -/
inductive Value where
  | int (n : Int)
  | str (s : String)
  | bool (b : Bool)
  | noneV
  | tuple (elts : List Value)
  | listV (elts : List Value)
  | obj (id : Nat)

mutual

/-- Normal form giving Python `==` on the modelled values: Python compares
`True`/`False` equal to `1`/`0` (also inside tuples and lists), every other
cross-type comparison of the modelled values is unequal, and `object()`
instances compare by identity. -/
def normv : Value → Value
  | .bool b => .int (if b then 1 else 0)
  | .tuple xs => .tuple (normvList xs)
  | .listV xs => .listV (normvList xs)
  | v => v

def normvList : List Value → List Value
  | [] => []
  | x :: xs => normv x :: normvList xs

end

mutual

/-- Structural equality of modelled values (the nested `List` field keeps
`DecidableEq` from being derived, so it is written out). -/
def vbeq : Value → Value → Bool
  | .int a, .int b => a == b
  | .str a, .str b => a == b
  | .bool a, .bool b => a == b
  | .noneV, .noneV => true
  | .tuple xs, .tuple ys => vbeqList xs ys
  | .listV xs, .listV ys => vbeqList xs ys
  | .obj a, .obj b => a == b
  | _, _ => false

def vbeqList : List Value → List Value → Bool
  | [], [] => true
  | x :: xs, y :: ys => vbeq x y && vbeqList xs ys
  | _, _ => false

end

/-- Python `==` on modelled values (see `normv`). -/
def pyEq (a b : Value) : Bool := vbeq (normv a) (normv b)

/-- Expression nodes: the `ast` expression forms the translated checks
inspect (`ast.Num`, `ast.Str`, `ast.Name`, `ast.Tuple`, `ast.List`,
`ast.Call`, `ast.Yield`).  `yieldE` is modelled without its operand: any
expression containing a yield fails to compile as an `ast.Expression`, so the
operand can never be observed by `evaluate`. -/
inductive Expr where
  | num (n : Int)
  | strE (s : String)
  | nameE (id : String)
  | tupleE (elts : List Expr)
  | listE (elts : List Expr)
  | call (func : Expr) (args : List Expr)
  | yieldE

/-- The exceptions `eval(compile(ast.Expression(node), '', 'eval'), namespace)`
can raise on the modelled expression forms: NameError for an unbound name,
TypeError for calling a non-callable, SyntaxError for compiling a yield. -/
inductive EvalErr where
  | nameError (id : String)
  | typeError
  | compileError
  deriving DecidableEq

/-- Result of the constant evaluator: a value, or the `VOLATILE` sentinel
(flake8_eyeo.py line 45) meaning "not statically determinable". -/
inductive FoldResult where
  | value (v : Value)
  | VOLATILE

mutual

/-- The evaluation that happens inside the `try:` of `evaluate`
(flake8_eyeo.py lines 49-52), with a read-only namespace: literals evaluate
to themselves, names are looked up in the namespace (raising NameError when
absent), tuple/list displays evaluate their elements left to right, a call
evaluates its function and arguments and then raises TypeError (no modelled
value is callable), and a yield raises at compile time. -/
def evalCore (ns : String → Option Value) : Expr → Except EvalErr Value
  | .num n => .ok (.int n)
  | .strE s => .ok (.str s)
  | .nameE id =>
      match ns id with
      | some v => .ok v
      | none => .error (.nameError id)
  | .tupleE es =>
      match evalCoreList ns es with
      | .ok vs => .ok (.tuple vs)
      | .error e => .error e
  | .listE es =>
      match evalCoreList ns es with
      | .ok vs => .ok (.listV vs)
      | .error e => .error e
  | .call f args =>
      match evalCore ns f with
      | .error e => .error e
      | .ok _ =>
          match evalCoreList ns args with
          | .error e => .error e
          | .ok _ => .error .typeError
  | .yieldE => .error .compileError

def evalCoreList (ns : String → Option Value) : List Expr → Except EvalErr (List Value)
  | [] => .ok []
  | e :: es =>
      match evalCore ns e with
      | .error err => .error err
      | .ok v =>
          match evalCoreList ns es with
          | .error err => .error err
          | .ok vs => .ok (v :: vs)

end

/-- `evaluate` (flake8_eyeo.py lines 48-52): run the evaluation and map any
exception to the `VOLATILE` sentinel. -/
def evaluate (node : Expr) (ns : String → Option Value) : FoldResult :=
  match evalCore ns node with
  | .ok v => .value v
  | .error _ => .VOLATILE

/-- The namespace `{'__builtins__': {'True': True, 'False': False, 'None':
None}}` used by `is_const` (flake8_eyeo.py line 56): name lookup reaches only
`True`, `False` and `None`.  (The interpreter detail that `eval` also makes
the name `__builtins__` itself resolvable is not modelled; no checked claim
mentions that name.) -/
def constNamespace : String → Option Value := fun id =>
  if id = "True" then some (.bool true)
  else if id = "False" then some (.bool false)
  else if id = "None" then some .noneV
  else none

/-- `is_const` (flake8_eyeo.py lines 55-57). -/
def is_const (node : Expr) : Bool :=
  match evaluate node constNamespace with
  | .VOLATILE => false
  | .value _ => true

/-- The finding messages emitted by the translated checks, one constructor
per distinct message of the source (`render` gives the exact strings). -/
inductive Msg where
  | a102
  | a103
  | a110raw
  | a110repr (py3 : Bool)
  | a111 (statement : String)
  | a112
  | a202 (statement : String)
  | a203
  | a204
  | a205
  | a207 (what : String)
  | a303
  deriving DecidableEq

/-- The exact message strings of flake8_eyeo.py. -/
def Msg.render : Msg → String
  | .a102 => "A102 use sets for distinct unordered data"
  | .a103 => "A103 yoda condition"
  | .a110raw => "A110 use single quotes for raw string"
  | .a110repr py3 =>
      "A110 string literal doesn\x27t match " ++ (if py3 then "ascii" else "repr") ++ "()"
  | .a111 statement => "A111 redundant parenthesis for " ++ statement ++ " statement"
  | .a112 =>
      "A112 use \"from __future__ import unicode_literals\" instead of prefixing literals with \"u\""
  | .a202 statement => "A202 dead code after " ++ statement
  | .a203 => "A203 unused expression"
  | .a204 => "A204 redundant pass statement"
  | .a205 => "A205 empty block"
  | .a207 what => "A207 duplicate " ++ what
  | .a303 => "A303 non-default file encoding"

/-- Statement nodes as `_visit_block` distinguishes them: `ast.Pass`, the
four `LEAVE_BLOCK` kinds (`ast.Return`, `ast.Raise`, `ast.Continue`,
`ast.Break`, line 44), bare expression statements (`ast.Expr`), and `assign`
standing for every other statement kind. -/
inductive Stmt where
  | passS
  | ret (value : Option Expr)
  | raiseS (exc : Option Expr)
  | continueS
  | breakS
  | exprS (value : Expr)
  | assign

/-- `get_statement` (flake8_eyeo.py lines 67-68): the lower-cased node class
name. -/
def getStatement : Stmt → String
  | .passS => "pass"
  | .ret _ => "return"
  | .raiseS _ => "raise"
  | .continueS => "continue"
  | .breakS => "break"
  | .exprS _ => "expr"
  | .assign => "assign"

/-- `isinstance(node, LEAVE_BLOCK)` (flake8_eyeo.py lines 44 and 98). -/
def isLeave : Stmt → Bool
  | .ret _ => true
  | .raiseS _ => true
  | .continueS => true
  | .breakS => true
  | _ => false

/-- `isinstance(node, ast.Pass)` (flake8_eyeo.py line 87). -/
def isPass : Stmt → Bool
  | .passS => true
  | _ => false

/-- `isinstance(node.value, ast.Str)` (flake8_eyeo.py line 103). -/
def isStrE : Expr → Bool
  | .strE _ => true
  | _ => false

/-- `isinstance(node.value, (ast.Call, ast.Yield))` (flake8_eyeo.py line 105). -/
def isCallOrYield : Expr → Bool
  | .call _ _ => true
  | .yieldE => true
  | _ => false

/-- The keyword arguments of `_visit_block` (flake8_eyeo.py lines 78-80),
with the source's defaults. -/
structure BlockFlags where
  block_required : Bool := false
  nodes_required : Bool := true
  docstring : Bool := false
  can_have_unused_expr : Bool := false

/-- The loop state of `_visit_block` (flake8_eyeo.py lines 81-84): the last
`pass` statement seen (by block index), whether a non-`pass` statement was
seen, the last `LEAVE_BLOCK` statement seen, the dead-code flag, and the
findings appended so far ((block index, message) pairs, position modelling
the node the source attaches the error to). -/
structure BState where
  passIdx : Option Nat
  hasNonPass : Bool
  leave : Option Stmt
  dead : Bool
  errs : List (Nat × Msg)

/-- One iteration of the `for i, node in enumerate(nodes)` loop of
`_visit_block` (flake8_eyeo.py lines 86-108), in source order: record
pass/non-pass, emit A202 on the first statement after a leave statement,
record a leave statement, then the unused-expression (A203) checks. -/
def blockStep (flags : BlockFlags) (i : Nat) (node : Stmt) (s : BState) : BState :=
  let s1 := if isPass node then { s with passIdx := some i } else { s with hasNonPass := true }
  let s2 :=
    match s1.leave, s1.dead with
    | some lv, false =>
        { s1 with dead := true, errs := s1.errs ++ [(i, Msg.a202 (getStatement lv))] }
    | _, _ => s1
  let s3 := if isLeave node then { s2 with leave := some node } else s2
  match node with
  | .exprS v =>
      if flags.can_have_unused_expr then s3
      else if flags.docstring && i == 0 && isStrE v then s3
      else if isCallOrYield v then s3
      else { s3 with errs := s3.errs ++ [(i, Msg.a203)] }
  | _ => s3

/-- The whole statement loop of `_visit_block`. -/
def blockLoop (flags : BlockFlags) : List Stmt → Nat → BState → BState
  | [], _, s => s
  | n :: rest, i, s => blockLoop flags rest (i + 1) (blockStep flags i n s)

/-- `_visit_block` (flake8_eyeo.py lines 78-116): run the loop, then the
trailing A204 (redundant pass) and A205 (empty block) checks on the last
`pass` statement recorded. -/
def visit_block (flags : BlockFlags) (nodes : List Stmt) : List (Nat × Msg) :=
  let s := blockLoop flags nodes 0 ⟨none, false, none, false, []⟩
  match s.passIdx with
  | some p =>
      s.errs
        ++ (if !flags.nodes_required || decide (nodes.length > 1) then [(p, Msg.a204)] else [])
        ++ (if !flags.block_required && !s.hasNonPass then [(p, Msg.a205)] else [])
  | none => s.errs

/-- The `_visit_block` call of `visit_FunctionDef` (flake8_eyeo.py line 192):
`self._visit_block(node.body, block_required=True, docstring=True)`. -/
def functionDefBodyCheck (body : List Stmt) : List (Nat × Msg) :=
  visit_block { block_required := true, docstring := true } body

/-- Claim C1, counterexample: for a function body of exactly `[pass]`,
`_visit_block` runs with `block_required=True` and `nodes_required=True`, so
the A204 guard `not nodes_required or len(nodes) > 1` and the A205 guard
`not block_required and not has_non_pass` are both false: neither the A204
nor the A205 finding claimed for that `pass` statement is emitted. -/
theorem c1_counterexample :
    (0, Msg.a204) ∉ functionDefBodyCheck [Stmt.passS] ∧
    (0, Msg.a205) ∉ functionDefBodyCheck [Stmt.passS] := by
  decide

/-- Claim C1, amended: a function body of exactly one `pass` statement yields
no finding at all (in particular neither A204 nor A205), while a function
body of `[pass, return 1]` yields exactly one A204 finding on the `pass`
statement (index 0) and no A205. -/
theorem c1_function_pass_block :
    functionDefBodyCheck [Stmt.passS] = [] ∧
    functionDefBodyCheck [Stmt.passS, Stmt.ret (some (Expr.num 1))] = [(0, Msg.a204)] := by
  decide

/-- The A202 finding the current loop iteration of `_visit_block` appends
(flake8_eyeo.py lines 92-96): one finding when a leave statement has been
seen and the dead-code flag is not yet set. -/
def a202now (i : Nat) (s : BState) : List (Nat × Msg) :=
  match s.leave, s.dead with
  | some lv, false => [(i, Msg.a202 (getStatement lv))]
  | _, _ => []

/-- The A203 finding the current loop iteration of `_visit_block` appends
(flake8_eyeo.py lines 101-108). -/
def a203now (flags : BlockFlags) (i : Nat) (n : Stmt) : List (Nat × Msg) :=
  match n with
  | .exprS v =>
      if flags.can_have_unused_expr then []
      else if flags.docstring && i == 0 && isStrE v then []
      else if isCallOrYield v then []
      else [(i, Msg.a203)]
  | _ => []

/-- One `_visit_block` loop iteration, written as an explicit state record:
used to reason about the loop. -/
theorem blockStep_eq (flags : BlockFlags) (i : Nat) (n : Stmt) (s : BState) :
    blockStep flags i n s =
      { passIdx := if isPass n then some i else s.passIdx
        hasNonPass := s.hasNonPass || !isPass n
        leave := if isLeave n then some n else s.leave
        dead := s.dead || s.leave.isSome
        errs := s.errs ++ a202now i s ++ a203now flags i n } := by
  rcases s with ⟨pi, hnp, lv, dd, es⟩
  cases n <;> rcases lv with _ | lv <;> cases dd <;>
    simp [blockStep, a202now, a203now, isPass, isLeave] <;>
    (repeat' split) <;> simp

/-- Is a finding message the A202 (dead code) message? -/
def isA202 : Msg → Bool
  | .a202 _ => true
  | _ => false

/-- The A202 findings among a list of findings. -/
def filterA202 (l : List (Nat × Msg)) : List (Nat × Msg) :=
  l.filter (fun f => isA202 f.2)

/-- The A202 findings claim C2 describes for a block whose statements start
at block index `i`: nothing until the first `return`/`raise`/`continue`/
`break` statement; if one exists and is not the last statement of the block,
exactly one finding, attached to the statement right after it and naming its
statement kind; nothing for a block whose exiting statement is last. -/
def a202spec : Nat → List Stmt → List (Nat × Msg)
  | _, [] => []
  | i, n :: rest =>
      if isLeave n then
        match rest with
        | [] => []
        | _ :: _ => [(i + 1, Msg.a202 (getStatement n))]
      else a202spec (i + 1) rest

/-- The A202 findings still to come when the loop of `_visit_block` reaches
the remaining statements `l` at index `i` with loop state
(`leave_node`, `dead_code`) = (`leave`, `dead`). -/
def a202tail (i : Nat) (l : List Stmt) (leave : Option Stmt) (dead : Bool) :
    List (Nat × Msg) :=
  if dead then []
  else
    match leave with
    | some lv =>
        match l with
        | [] => []
        | _ :: _ => [(i, Msg.a202 (getStatement lv))]
    | none => a202spec i l

theorem filterA202_nil : filterA202 [] = [] := rfl

theorem filterA202_append (a b : List (Nat × Msg)) :
    filterA202 (a ++ b) = filterA202 a ++ filterA202 b := by
  simp [filterA202, List.filter_append]

theorem filterA202_a202single (i : Nat) (st : String) :
    filterA202 [(i, Msg.a202 st)] = [(i, Msg.a202 st)] := by
  simp [filterA202, isA202]

theorem filterA202_ite (c : Prop) [Decidable c] (p : Nat) (m : Msg) (hm : isA202 m = false) :
    filterA202 (if c then [(p, m)] else []) = [] := by
  split <;> simp [filterA202, hm]

theorem filterA202_a203now (flags : BlockFlags) (i : Nat) (n : Stmt) :
    filterA202 (a203now flags i n) = [] := by
  cases n <;> simp only [a203now] <;> (repeat' split) <;>
    simp [filterA202, isA202]

theorem blockLoop_a202 (flags : BlockFlags) :
    ∀ (l : List Stmt) (i : Nat) (s : BState),
      filterA202 (blockLoop flags l i s).errs
        = filterA202 s.errs ++ a202tail i l s.leave s.dead := by
  intro l
  induction l with
  | nil =>
      intro i s
      rcases s with ⟨pi, hnp, lv, dd, es⟩
      rcases lv with _ | lv <;> cases dd <;>
        simp [blockLoop, a202tail, a202spec]
  | cons n rest ih =>
      intro i s
      rw [show blockLoop flags (n :: rest) i s
            = blockLoop flags rest (i + 1) (blockStep flags i n s) from rfl]
      rw [ih, blockStep_eq]
      rcases s with ⟨pi, hnp, lv, dd, es⟩
      rcases lv with _ | lv <;> cases dd <;>
        simp only [filterA202_append, filterA202_a203now, filterA202_a202single,
          a202now, a202tail, filterA202_nil, Option.isSome, Bool.or_true,
          Bool.or_false, Bool.false_or, Bool.true_or, if_true, if_false,
          List.append_nil, List.nil_append, List.append_assoc, ite_true, ite_false] <;>
        (try rcases hn : isLeave n <;> cases rest <;>
          simp [a202spec, a202tail, hn, isA202])

/-- Claim C2: in every block, `_visit_block` emits A202 exactly as described
by `a202spec`: one finding attached to the first statement after the first
exiting statement, naming that statement's kind, and none when the exiting
statement is last or absent.  In particular `[expr, raise]` produces no A202
finding and `[raise, stmt, stmt]` produces exactly one, attached to the first
statement after the raise. -/
theorem c2_dead_code :
    (∀ (flags : BlockFlags) (nodes : List Stmt),
      filterA202 (visit_block flags nodes) = a202spec 0 nodes) ∧
    filterA202 (visit_block {} [Stmt.exprS (Expr.nameE "x"), Stmt.raiseS none]) = [] ∧
    filterA202 (visit_block {} [Stmt.raiseS none, Stmt.assign, Stmt.assign])
      = [(1, Msg.a202 "raise")] := by
  refine ⟨?_, by decide, by decide⟩
  intro flags nodes
  have h2 := blockLoop_a202 flags nodes 0 ⟨none, false, none, false, []⟩
  simp only [a202tail, filterA202_nil, List.nil_append, if_false, ite_false,
    Bool.false_eq_true] at h2
  unfold visit_block
  rcases h : (blockLoop flags nodes 0 ⟨none, false, none, false, []⟩).passIdx with _ | p <;>
    simp only [h]
  · exact h2
  · rw [filterA202_append, filterA202_append,
        filterA202_ite _ p Msg.a204 rfl, filterA202_ite _ p Msg.a205 rfl, h2]
    simp


/-- Is a finding message the A204 (redundant pass) or A205 (empty block)
message? -/
def isA204or205 : Msg → Bool
  | .a204 => true
  | .a205 => true
  | _ => false

/-- The block index of the last `pass` statement of a block starting at
index `i` (the final value of the `pass_node` variable of `_visit_block`). -/
def lastPassIdx : List Stmt → Nat → Option Nat
  | [], _ => none
  | n :: rest, i =>
      match lastPassIdx rest (i + 1) with
      | some j => some j
      | none => if isPass n then some i else none

theorem a203now_mem (flags : BlockFlags) (i : Nat) (n : Stmt) :
    ∀ f ∈ a203now flags i n, f.2 = Msg.a203 := by
  cases n <;> simp only [a203now] <;> (repeat' split) <;> simp

theorem a202now_mem (i : Nat) (s : BState) :
    ∀ f ∈ a202now i s, isA204or205 f.2 = false := by
  unfold a202now
  (repeat' split) <;> simp [isA204or205]

/-- The statement loop of `_visit_block` never appends an A204 or A205
finding: those come only from the trailing checks. -/
theorem blockLoop_no45 (flags : BlockFlags) :
    ∀ (l : List Stmt) (i : Nat) (s : BState),
      (∀ f ∈ s.errs, isA204or205 f.2 = false) →
      ∀ f ∈ (blockLoop flags l i s).errs, isA204or205 f.2 = false := by
  intro l
  induction l with
  | nil => intro i s h; simpa [blockLoop] using h
  | cons n rest ih =>
      intro i s h
      rw [show blockLoop flags (n :: rest) i s
            = blockLoop flags rest (i + 1) (blockStep flags i n s) from rfl]
      apply ih
      intro f hf
      rw [blockStep_eq] at hf
      simp only [List.mem_append] at hf
      rcases hf with (hf | hf) | hf
      · exact h f hf
      · exact a202now_mem i s f hf
      · rw [a203now_mem flags i n f hf]; rfl

/-- The final `pass_node` of the loop of `_visit_block` is the last `pass`
statement of the block. -/
theorem blockLoop_passIdx (flags : BlockFlags) :
    ∀ (l : List Stmt) (i : Nat) (s : BState),
      (blockLoop flags l i s).passIdx
        = match lastPassIdx l i with
          | some j => some j
          | none => s.passIdx := by
  intro l
  induction l with
  | nil => intro i s; simp [blockLoop, lastPassIdx]
  | cons n rest ih =>
      intro i s
      rw [show blockLoop flags (n :: rest) i s
            = blockLoop flags rest (i + 1) (blockStep flags i n s) from rfl]
      rw [ih, blockStep_eq]
      rcases h : lastPassIdx rest (i + 1) with _ | j <;>
        simp only [lastPassIdx, h] <;>
        (rcases hp : isPass n <;> simp [hp])

/-- Claim C10: per block, `_visit_block` emits at most one A204 finding and
at most one A205 finding, and every A204/A205 finding is attached to the
last `pass` statement of the block. -/
theorem c10_pass_findings :
    ∀ (flags : BlockFlags) (nodes : List Stmt),
      ((visit_block flags nodes).filter (fun f => f.2 == Msg.a204)).length ≤ 1 ∧
      ((visit_block flags nodes).filter (fun f => f.2 == Msg.a205)).length ≤ 1 ∧
      (∀ p m, (p, m) ∈ visit_block flags nodes → isA204or205 m = true →
        lastPassIdx nodes 0 = some p) := by
  intro flags nodes
  have hno := blockLoop_no45 flags nodes 0 ⟨none, false, none, false, []⟩ (by simp)
  have hpi := blockLoop_passIdx flags nodes 0 ⟨none, false, none, false, []⟩
  have herrs4 : ((blockLoop flags nodes 0 ⟨none, false, none, false, []⟩).errs).filter
      (fun f => f.2 == Msg.a204) = [] := by
    rw [List.filter_eq_nil_iff]
    intro f hf
    have := hno f hf
    simp only [beq_iff_eq]
    intro heq
    rw [heq] at this
    simp [isA204or205] at this
  have herrs5 : ((blockLoop flags nodes 0 ⟨none, false, none, false, []⟩).errs).filter
      (fun f => f.2 == Msg.a205) = [] := by
    rw [List.filter_eq_nil_iff]
    intro f hf
    have := hno f hf
    simp only [beq_iff_eq]
    intro heq
    rw [heq] at this
    simp [isA204or205] at this
  unfold visit_block
  rcases h : (blockLoop flags nodes 0 ⟨none, false, none, false, []⟩).passIdx with _ | p <;>
    simp only [h]
  · refine ⟨by simp [herrs4], by simp [herrs5], ?_⟩
    intro p m hm hm45
    have := hno (p, m) hm
    rw [hm45] at this
    exact absurd this (by simp)
  · have hlast : lastPassIdx nodes 0 = some p := by
      rcases hl : lastPassIdx nodes 0 with _ | j
      · rw [hl] at hpi; simp at hpi; rw [hpi] at h; exact absurd h (by simp)
      · rw [hl] at hpi; simp at hpi; rw [hpi] at h
        exact h
    refine ⟨?_, ?_, ?_⟩
    · rw [List.filter_append, List.filter_append, herrs4]
      simp only [List.nil_append, List.length_append]
      have b1 : ((if (!flags.nodes_required || decide (nodes.length > 1)) = true
          then [(p, Msg.a204)] else []).filter (fun f => f.2 == Msg.a204)).length ≤ 1 := by
        split <;> simp
      have b2 : ((if (!flags.block_required
            && !(blockLoop flags nodes 0 ⟨none, false, none, false, []⟩).hasNonPass) = true
          then [(p, Msg.a205)] else []).filter (fun f => f.2 == Msg.a204)).length = 0 := by
        split <;> simp
      omega
    · rw [List.filter_append, List.filter_append, herrs5]
      simp only [List.nil_append, List.length_append]
      have b1 : ((if (!flags.nodes_required || decide (nodes.length > 1)) = true
          then [(p, Msg.a204)] else []).filter (fun f => f.2 == Msg.a205)).length = 0 := by
        split <;> simp
      have b2 : ((if (!flags.block_required
            && !(blockLoop flags nodes 0 ⟨none, false, none, false, []⟩).hasNonPass) = true
          then [(p, Msg.a205)] else []).filter (fun f => f.2 == Msg.a205)).length ≤ 1 := by
        split <;> simp
      omega
    · intro q m hm hm45
      simp only [List.mem_append] at hm
      rcases hm with (hm | hm) | hm
      · have := hno (q, m) hm
        rw [hm45] at this
        exact absurd this (by simp)
      · have : q = p := by
          rcases hc : (!flags.nodes_required || decide (nodes.length > 1)) with _ | _ <;>
            rw [hc] at hm <;> simp at hm
          exact hm.1
        rw [this]; exact hlast
      · have : q = p := by
          rcases hc : (!flags.block_required
              && !(blockLoop flags nodes 0 ⟨none, false, none, false, []⟩).hasNonPass) with _ | _ <;>
            rw [hc] at hm <;> simp at hm
          exact hm.1
        rw [this]; exact hlast


/-- Claim C5: for every expression node and namespace, the constant
evaluator returns either a value or the `VOLATILE` sentinel, and every
exception the wrapped evaluation raises is caught and mapped to `VOLATILE`
(it is never propagated: `evaluate` is a total function into `FoldResult`). -/
theorem c5_evaluate_total (node : Expr) (ns : String → Option Value) :
    ((∃ v, evaluate node ns = FoldResult.value v) ∨
      evaluate node ns = FoldResult.VOLATILE) ∧
    (∀ err, evalCore ns node = Except.error err →
      evaluate node ns = FoldResult.VOLATILE) := by
  constructor
  · rcases h : evalCore ns node with v | e
    · exact Or.inr (by simp [evaluate, h])
    · exact Or.inl ⟨e, by simp [evaluate, h]⟩
  · intro err h
    simp [evaluate, h]

/-- Witness for claim C5 at a concrete input: evaluating the unbound name
`x` in the restricted namespace raises a NameError inside, and `evaluate`
returns `VOLATILE`. -/
theorem c5_witness :
    evalCore constNamespace (Expr.nameE "x") = Except.error (EvalErr.nameError "x") ∧
    evaluate (Expr.nameE "x") constNamespace = FoldResult.VOLATILE := by
  have h : evalCore constNamespace (Expr.nameE "x")
      = Except.error (EvalErr.nameError "x") := by
    simp [evalCore, constNamespace]
  exact ⟨h, (c5_evaluate_total (Expr.nameE "x") constNamespace).2 _ h⟩

/-- The comparison operators of `ast.Compare` nodes. -/
inductive CmpOp where
  | eq
  | notEq
  | lt
  | ltE
  | gt
  | gtE
  | isE
  | isNotE
  | inE
  | notInE
  deriving DecidableEq

/-- `isinstance(op, (ast.In, ast.NotIn))` (flake8_eyeo.py line 262). -/
def isMembership : CmpOp → Bool
  | .inE => true
  | .notInE => true
  | _ => false

/-- `isinstance(op, (ast.Eq, ast.NotEq, ast.Is, ast.IsNot))`
(flake8_eyeo.py line 263). -/
def isSymmetric : CmpOp → Bool
  | .eq => true
  | .notEq => true
  | .isE => true
  | .isNotE => true
  | _ => false

/-- `isinstance(right, (ast.Tuple, ast.List))` (flake8_eyeo.py line 265). -/
def isTupleOrListE : Expr → Bool
  | .tupleE _ => true
  | .listE _ => true
  | _ => false

/-- An `ast.Compare` node: the leftmost operand and the `zip(node.ops,
node.comparators)` pairs the loop of `visit_Compare` walks. -/
structure CompareE where
  left : Expr
  pairs : List (CmpOp × Expr)

/-- The `for op, right in zip(node.ops, node.comparators)` loop of
`visit_Compare` (flake8_eyeo.py lines 261-273).  Findings are attached to
the operand the source attaches them to, identified by its position in the
operand chain (the leftmost operand is position 0, the k-th comparator is
position k+1). -/
def compareLoop (single : Bool) : Nat → Expr → List (CmpOp × Expr) → List (Nat × Msg)
  | _, _, [] => []
  | k, left, (op, right) :: rest =>
      let memb := isMembership op
      let a102s : List (Nat × Msg) :=
        if memb && isTupleOrListE right then [(k + 1, Msg.a102)] else []
      let constsFirst := (single && !memb) || isSymmetric op
      let a103s : List (Nat × Msg) :=
        if constsFirst && is_const left && !is_const right then [(k, Msg.a103)] else []
      a102s ++ a103s ++ compareLoop single (k + 1) right rest

/-- `visit_Compare` (flake8_eyeo.py lines 257-275). -/
def visit_Compare (c : CompareE) : List (Nat × Msg) :=
  compareLoop (c.pairs.length == 1) 0 c.left c.pairs

/-- Is a finding message the A103 (yoda condition) message? -/
def isA103 : Msg → Bool
  | .a103 => true
  | _ => false

/-- The A103 findings claim C3 describes for the operand chain starting at
operand position `k` with current left operand `left`: one finding at the
left operand of each operator that is equality/identity (or belongs to a
single-operator chain and is not a membership test) whose left operand folds
to a constant while its right operand does not. -/
def yodaSpec (single : Bool) : Nat → Expr → List (CmpOp × Expr) → List (Nat × Msg)
  | _, _, [] => []
  | k, left, (op, right) :: rest =>
      (if (isSymmetric op || (single && !isMembership op))
          && is_const left && !is_const right
       then [(k, Msg.a103)] else [])
        ++ yodaSpec single (k + 1) right rest

theorem compareLoop_a103 (single : Bool) :
    ∀ (pairs : List (CmpOp × Expr)) (k : Nat) (left : Expr),
      (compareLoop single k left pairs).filter (fun f => isA103 f.2)
        = yodaSpec single k left pairs := by
  intro pairs
  induction pairs with
  | nil => intro k left; simp [compareLoop, yodaSpec]
  | cons p rest ih =>
      intro k left
      rcases p with ⟨op, right⟩
      rw [show compareLoop single k left ((op, right) :: rest)
            = (if isMembership op && isTupleOrListE right then [(k + 1, Msg.a102)] else [])
              ++ (if ((single && !isMembership op) || isSymmetric op)
                    && is_const left && !is_const right
                  then [(k, Msg.a103)] else [])
              ++ compareLoop single (k + 1) right rest from rfl]
      rw [show yodaSpec single k left ((op, right) :: rest)
            = (if (isSymmetric op || (single && !isMembership op))
                  && is_const left && !is_const right
               then [(k, Msg.a103)] else [])
              ++ yodaSpec single (k + 1) right rest from rfl]
      rw [List.filter_append, List.filter_append, ih]
      rw [Bool.or_comm (single && !isMembership op) (isSymmetric op)]
      have e1 : List.filter (fun f => isA103 f.2)
          (if (isMembership op && isTupleOrListE right) = true
           then [(k + 1, Msg.a102)] else []) = [] := by
        split <;> simp [isA103]
      have e2 : List.filter (fun f => isA103 f.2)
          (if ((isSymmetric op || single && !isMembership op)
                && is_const left && !is_const right) = true
           then [(k, Msg.a103)] else [])
          = (if ((isSymmetric op || single && !isMembership op)
                  && is_const left && !is_const right) = true
             then [(k, Msg.a103)] else []) := by
        split <;> simp [isA103]
      rw [e1, e2, List.nil_append]

/-- Claim C3: in a comparison chain, A103 is emitted exactly as `yodaSpec`
describes; in particular `5 == x` yields A103 at the constant operand,
`x == 5` yields none, and `5 == 6` (both sides constant) yields none. -/
theorem c3_yoda_condition :
    (∀ c : CompareE,
      (visit_Compare c).filter (fun f => isA103 f.2)
        = yodaSpec (c.pairs.length == 1) 0 c.left c.pairs) ∧
    visit_Compare ⟨Expr.num 5, [(CmpOp.eq, Expr.nameE "x")]⟩ = [(0, Msg.a103)] ∧
    visit_Compare ⟨Expr.nameE "x", [(CmpOp.eq, Expr.num 5)]⟩ = [] ∧
    visit_Compare ⟨Expr.num 5, [(CmpOp.eq, Expr.num 6)]⟩ = [] := by
  refine ⟨?_, by decide, by decide, by decide⟩
  intro c
  exact compareLoop_a103 (c.pairs.length == 1) c.pairs 0 c.left


theorem vbeq_iff_aux : ∀ (N : Nat),
    (∀ a b : Value, sizeOf a ≤ N → (vbeq a b = true ↔ a = b)) ∧
    (∀ xs ys : List Value, sizeOf xs ≤ N → (vbeqList xs ys = true ↔ xs = ys)) := by
  intro N
  induction N with
  | zero =>
      constructor
      · intro a b h
        exact absurd h (by cases a <;> simp)
      · intro xs ys h
        exact absurd h (by cases xs <;> simp)
  | succ n ih =>
      constructor
      · intro a b h
        cases a <;> cases b <;> simp [vbeq]
        case tuple.tuple xs ys =>
          exact ih.2 xs ys (by simp at h; omega)
        case listV.listV xs ys =>
          exact ih.2 xs ys (by simp at h; omega)
      · intro xs ys h
        cases xs <;> cases ys <;> simp [vbeqList]
        case cons.cons x xs y ys =>
          rw [ih.1 x y (by simp at h; omega), ih.2 xs ys (by simp at h; omega)]
  
/-- `vbeq` decides equality of modelled values. -/
theorem vbeq_iff (a b : Value) : vbeq a b = true ↔ a = b :=
  (vbeq_iff_aux (sizeOf a)).1 a b le_rfl

/-- `pyEq` holds exactly when the two values normalise alike: this makes the
Python `==` of the model symmetric and transitive. -/
theorem pyEq_iff (a b : Value) : pyEq a b = true ↔ normv a = normv b := by
  simp [pyEq, vbeq_iff]

mutual

/-- Does the expression contain a yield?  `compile` rejects such an
expression before any evaluation happens, so `evaluate` sees the SyntaxError
with the namespace untouched. -/
def containsYield : Expr → Bool
  | .yieldE => true
  | .tupleE es => containsYieldList es
  | .listE es => containsYieldList es
  | .call f args => containsYield f || containsYieldList args
  | _ => false

def containsYieldList : List Expr → Bool
  | [] => false
  | e :: es => containsYield e || containsYieldList es

end

/-- The namespace `collections.defaultdict(object, vars(builtins))` of
`_visit_hash_keys` (flake8_eyeo.py line 339): an association list seeded with
the builtins entries the call site supplies, plus the counter distinguishing
the fresh `object()` instances `__missing__` creates.  (Lookup of a missing
name inserts a fresh object and returns it, as CPython 3 name lookup on a
dict subclass does.) -/
structure DDNS where
  entries : List (String × Value)
  fresh : Nat

mutual

/-- The evaluation inside `evaluate` when the namespace is the defaultdict
of `_visit_hash_keys`: like `evalCore`, except that looking up a missing
name inserts and returns a fresh `object()` (mutating the namespace, which
is shared by all keys of one container literal), and every evaluation step
threads the namespace through — mutations made before an exception persist. -/
def evalKeyCore : Expr → DDNS → Except EvalErr Value × DDNS
  | .num n, σ => (.ok (.int n), σ)
  | .strE s, σ => (.ok (.str s), σ)
  | .nameE id, σ =>
      match σ.entries.lookup id with
      | some v => (.ok v, σ)
      | none => (.ok (Value.obj σ.fresh), ⟨(id, Value.obj σ.fresh) :: σ.entries, σ.fresh + 1⟩)
  | .tupleE es, σ =>
      match evalKeyCoreList es σ with
      | (.ok vs, σ2) => (.ok (.tuple vs), σ2)
      | (.error e, σ2) => (.error e, σ2)
  | .listE es, σ =>
      match evalKeyCoreList es σ with
      | (.ok vs, σ2) => (.ok (.listV vs), σ2)
      | (.error e, σ2) => (.error e, σ2)
  | .call f args, σ =>
      match evalKeyCore f σ with
      | (.error e, σ2) => (.error e, σ2)
      | (.ok _, σ2) =>
          match evalKeyCoreList args σ2 with
          | (.error e, σ3) => (.error e, σ3)
          | (.ok _, σ3) => (.error .typeError, σ3)
  | .yieldE, σ => (.error .compileError, σ)

def evalKeyCoreList : List Expr → DDNS → Except EvalErr (List Value) × DDNS
  | [], σ => (.ok [], σ)
  | e :: es, σ =>
      match evalKeyCore e σ with
      | (.error err, σ2) => (.error err, σ2)
      | (.ok v, σ2) =>
          match evalKeyCoreList es σ2 with
          | (.error err, σ3) => (.error err, σ3)
          | (.ok vs, σ3) => (.ok (v :: vs), σ3)

end

/-- `evaluate(node, namespace)` as `_visit_hash_keys` calls it: compile
first (a yield anywhere is a SyntaxError before the namespace is touched),
then evaluate, mapping every exception to `VOLATILE` and keeping the
namespace mutations made before the exception. -/
def evalKey (node : Expr) (σ : DDNS) : FoldResult × DDNS :=
  if containsYield node then (.VOLATILE, σ)
  else
    match evalKeyCore node σ with
    | (.ok v, σ2) => (.value v, σ2)
    | (.error _, σ2) => (.VOLATILE, σ2)

/-- The `for node in nodes` loop of `_visit_hash_keys` (flake8_eyeo.py lines
340-349): skip keys that fold to `VOLATILE`; flag a key whose folded value
compares equal (Python `==`) to an already accepted key; otherwise append
the folded value to the accepted keys.  Findings are attached to the key's
index in the literal. -/
def hashKeysLoop (what : String) : List Expr → Nat → DDNS → List Value → List (Nat × Msg)
  | [], _, _, _ => []
  | node :: rest, i, σ, keys =>
      match evalKey node σ with
      | (.VOLATILE, σ2) => hashKeysLoop what rest (i + 1) σ2 keys
      | (.value v, σ2) =>
          if keys.any (fun k => pyEq v k) then
            (i, Msg.a207 what) :: hashKeysLoop what rest (i + 1) σ2 keys
          else
            hashKeysLoop what rest (i + 1) σ2 (keys ++ [v])

/-- `_visit_hash_keys` (flake8_eyeo.py lines 337-349); `builtinsNS` stands
for the contents of `vars(builtins)` (quantified over, since the Python
builtin namespace is not enumerated here). -/
def visit_hash_keys (builtinsNS : List (String × Value)) (nodes : List Expr)
    (what : String) : List (Nat × Msg) :=
  hashKeysLoop what nodes 0 ⟨builtinsNS, 0⟩ []

/-- `visit_Dict` (flake8_eyeo.py lines 351-352). -/
def visit_Dict (builtinsNS : List (String × Value)) (keys : List Expr) : List (Nat × Msg) :=
  visit_hash_keys builtinsNS keys "key in dict"

/-- `visit_Set` (flake8_eyeo.py lines 354-355). -/
def visit_Set (builtinsNS : List (String × Value)) (elts : List Expr) : List (Nat × Msg) :=
  visit_hash_keys builtinsNS elts "item in set"

/-- The fold results of the keys of one container literal, left to right,
threading the shared namespace. -/
def foldTrace : List Expr → DDNS → List FoldResult
  | [], _ => []
  | n :: rest, σ =>
      match evalKey n σ with
      | (r, σ2) => r :: foldTrace rest σ2

/-- The A207 findings claim C4 describes, computed from the fold results:
walking left to right with `seen` collecting every previously folded value,
a key is flagged exactly when it folds to a value equal (Python `==`) to
some earlier folded value; keys folding to `VOLATILE` are skipped and do
not count. -/
def dupSpecLoop (what : String) : List FoldResult → Nat → List Value → List (Nat × Msg)
  | [], _, _ => []
  | .VOLATILE :: rest, i, seen => dupSpecLoop what rest (i + 1) seen
  | .value v :: rest, i, seen =>
      (if seen.any (fun w => pyEq v w) then [(i, Msg.a207 what)] else [])
        ++ dupSpecLoop what rest (i + 1) (seen ++ [v])

theorem hashKeysLoop_spec (what : String) :
    ∀ (nodes : List Expr) (i : Nat) (σ : DDNS) (keys seen : List Value),
      (∀ v : Value, keys.any (fun k => pyEq v k) = seen.any (fun w => pyEq v w)) →
      hashKeysLoop what nodes i σ keys
        = dupSpecLoop what (foldTrace nodes σ) i seen := by
  intro nodes
  induction nodes with
  | nil => intro i σ keys seen hinv; rfl
  | cons n rest ih =>
      intro i σ keys seen hinv
      rcases hr : evalKey n σ with ⟨r, σ2⟩
      rw [show hashKeysLoop what (n :: rest) i σ keys
            = (match evalKey n σ with
               | (.VOLATILE, σ2) => hashKeysLoop what rest (i + 1) σ2 keys
               | (.value v, σ2) =>
                   if keys.any (fun k => pyEq v k) then
                     (i, Msg.a207 what) :: hashKeysLoop what rest (i + 1) σ2 keys
                   else
                     hashKeysLoop what rest (i + 1) σ2 (keys ++ [v])) from rfl]
      rw [show foldTrace (n :: rest) σ
            = (match evalKey n σ with
               | (r, σ2) => r :: foldTrace rest σ2) from rfl]
      rw [hr]
      rcases r with v | _
      · rw [show dupSpecLoop what (FoldResult.value v :: foldTrace rest σ2) i seen
              = (if seen.any (fun w => pyEq v w) then [(i, Msg.a207 what)] else [])
                ++ dupSpecLoop what (foldTrace rest σ2) (i + 1) (seen ++ [v]) from rfl]
        rw [← hinv v]
        rcases hc : keys.any (fun k => pyEq v k)
        · simp only [hc, Bool.false_eq_true, if_false, List.nil_append]
          apply ih
          intro w
          simp only [List.any_append, List.any_cons, List.any_nil, Bool.or_false]
          rw [hinv w]
        · simp [hc]
          apply ih
          intro w
          simp only [List.any_append, List.any_cons, List.any_nil, Bool.or_false]
          rcases hw : pyEq w v
          · simp [hinv w]
          · have hs : seen.any (fun u => pyEq v u) = true := by rw [← hinv v]; exact hc
            obtain ⟨u, hu, hvu⟩ := List.any_eq_true.1 hs
            have hwu : pyEq w u = true := by
              rw [pyEq_iff] at hw hvu ⊢
              rw [hw, hvu]
            have h2 : seen.any (fun x => pyEq w x) = true :=
              List.any_eq_true.2 ⟨u, hu, hwu⟩
            rw [hinv w, h2]
            rfl
      · exact ih (i + 1) σ2 keys seen hinv

/-- Claim C4: for every dict (and set) literal, `_visit_hash_keys` produces
exactly the findings `dupSpecLoop` describes on the left-to-right fold trace
of its keys: the first key folding to a given value is accepted silently,
each later key folding to an equal value is flagged with exactly one A207 at
that key, and a key folding to `VOLATILE` is never flagged and never counts
toward duplicates.  In particular `{1: ..., 1: ...}` yields exactly one A207
at the second key and `{1: ..., 2: ...}` yields none. -/
theorem c4_duplicate_keys :
    (∀ (builtinsNS : List (String × Value)) (nodes : List Expr) (what : String),
      visit_hash_keys builtinsNS nodes what
        = dupSpecLoop what (foldTrace nodes ⟨builtinsNS, 0⟩) 0 []) ∧
    visit_Dict [] [Expr.num 1, Expr.num 1] = [(1, Msg.a207 "key in dict")] ∧
    visit_Dict [] [Expr.num 1, Expr.num 2] = [] := by
  refine ⟨?_, by decide, by decide⟩
  intro builtinsNS nodes what
  exact hashKeysLoop_spec what nodes 0 ⟨builtinsNS, 0⟩ [] [] (fun v => rfl)

/-- The tree nodes the scope traversal distinguishes: `ast.Module`,
`ast.FunctionDef`/`ast.ClassDef` (visit_ClassDef = visit_FunctionDef), and
`leaf` for every other node kind (which pushes no scope). -/
inductive SNode where
  | module (body : List SNode)
  | functiondef (body : List SNode)
  | classdef (body : List SNode)
  | leaf

mutual

/-- The scope-stack effect of the traversal (flake8_eyeo.py lines 178-188
and 190-207): visiting a module/function/class node appends a scope for it
(`self.scope_stack.append(scope)`), generic-visits the children, then
deletes the last stack entry (`del self.scope_stack[-1]`); other nodes do
not touch the stack.  The stack is modelled by the list of scope-owning
nodes (the `node` field of the source's `Scope` namedtuple; its `names` and
`globals` fields play no part in the stack discipline).  Besides the final
stack, the traversal returns the trace of stack depths observed on entry to
each node's visit, in traversal order. -/
def visitS : SNode → List SNode → List SNode × List Nat
  | SNode.leaf, st => (st, [st.length])
  | SNode.module body, st =>
      let r := visitList body (st ++ [SNode.module body])
      (r.1.dropLast, st.length :: r.2)
  | SNode.functiondef body, st =>
      let r := visitList body (st ++ [SNode.functiondef body])
      (r.1.dropLast, st.length :: r.2)
  | SNode.classdef body, st =>
      let r := visitList body (st ++ [SNode.classdef body])
      (r.1.dropLast, st.length :: r.2)

def visitList : List SNode → List SNode → List SNode × List Nat
  | [], st => (st, [])
  | n :: rest, st =>
      let r1 := visitS n st
      let r2 := visitList rest r1.1
      (r2.1, r1.2 ++ r2.2)

end

mutual

/-- The syntactic nesting depths of a subtree rooted at nesting depth `d`:
the node itself contributes `d`, and a module/function/class node nests its
children one deeper. -/
def nestDepthsNode : SNode → Nat → List Nat
  | SNode.leaf, d => [d]
  | SNode.module body, d => d :: nestDepthsList body (d + 1)
  | SNode.functiondef body, d => d :: nestDepthsList body (d + 1)
  | SNode.classdef body, d => d :: nestDepthsList body (d + 1)

def nestDepthsList : List SNode → Nat → List Nat
  | [], _ => []
  | n :: rest, d => nestDepthsNode n d ++ nestDepthsList rest d

end

theorem dropLast_concat_eq (l : List SNode) (x : SNode) : (l ++ [x]).dropLast = l := by
  simp

mutual

theorem visitS_spec : ∀ (n : SNode) (st : List SNode),
    visitS n st = (st, nestDepthsNode n st.length)
  | SNode.leaf, st => by simp [visitS, nestDepthsNode]
  | SNode.module body, st => by
      have h := visitList_spec body (st ++ [SNode.module body])
      simp [visitS, nestDepthsNode, h]
  | SNode.functiondef body, st => by
      have h := visitList_spec body (st ++ [SNode.functiondef body])
      simp [visitS, nestDepthsNode, h]
  | SNode.classdef body, st => by
      have h := visitList_spec body (st ++ [SNode.classdef body])
      simp [visitS, nestDepthsNode, h]

theorem visitList_spec : ∀ (l : List SNode) (st : List SNode),
    visitList l st = (st, nestDepthsList l st.length)
  | [], st => by simp [visitList, nestDepthsList]
  | n :: rest, st => by
      have h1 := visitS_spec n st
      have h2 := visitList_spec rest st
      simp [visitList, nestDepthsList, h1, h2]

end

mutual

theorem nestDepthsNode_ge : ∀ (n : SNode) (d : Nat), ∀ x ∈ nestDepthsNode n d, d ≤ x
  | SNode.leaf, d => by simp [nestDepthsNode]
  | SNode.module body, d => by
      have h := nestDepthsList_ge body (d + 1)
      simp only [nestDepthsNode, List.mem_cons]
      rintro x (rfl | hx)
      · exact le_rfl
      · exact le_trans (Nat.le_succ d) (h x hx)
  | SNode.functiondef body, d => by
      have h := nestDepthsList_ge body (d + 1)
      simp only [nestDepthsNode, List.mem_cons]
      rintro x (rfl | hx)
      · exact le_rfl
      · exact le_trans (Nat.le_succ d) (h x hx)
  | SNode.classdef body, d => by
      have h := nestDepthsList_ge body (d + 1)
      simp only [nestDepthsNode, List.mem_cons]
      rintro x (rfl | hx)
      · exact le_rfl
      · exact le_trans (Nat.le_succ d) (h x hx)

theorem nestDepthsList_ge : ∀ (l : List SNode) (d : Nat), ∀ x ∈ nestDepthsList l d, d ≤ x
  | [], d => by simp [nestDepthsList]
  | n :: rest, d => by
      have h1 := nestDepthsNode_ge n d
      have h2 := nestDepthsList_ge rest d
      simp only [nestDepthsList, List.mem_append]
      rintro x (hx | hx)
      · exact h1 x hx
      · exact h2 x hx

end

/-- Claim C6: the scope traversal restores the stack it was given after
every subtree (each pushed scope is popped exactly when its node's subtree
finishes), the stack depth observed at each node's visit equals that node's
syntactic nesting depth of module/function/class nodes, and for a module
visited on the empty stack the module scope is pushed first and popped last:
the final stack is empty again, the module itself is visited at depth 0, and
every node inside the module is visited with a non-empty stack (depth at
least 1). -/
theorem c6_scope_stack :
    (∀ (n : SNode) (st : List SNode), visitS n st = (st, nestDepthsNode n st.length)) ∧
    (∀ body : List SNode,
      visitS (SNode.module body) [] = ([], 0 :: nestDepthsList body 1) ∧
      ∀ d ∈ nestDepthsList body 1, 1 ≤ d) := by
  refine ⟨visitS_spec, fun body => ⟨?_, nestDepthsList_ge body 1⟩⟩
  have h := visitS_spec (SNode.module body) []
  simpa [nestDepthsNode] using h


/-- The character class `\\s` of Python regular expressions, restricted to
the ASCII whitespace characters. -/
def pySpace (c : Char) : Bool :=
  c = ' ' || c = '\t' || c = '\n' || c = '\r' || c = '\x0B' || c = '\x0C'

/-- Does the character list start with `coding` followed by `:` or `=`? -/
def startsCodingMark : List Char → Bool
  | 'c' :: 'o' :: 'd' :: 'i' :: 'n' :: 'g' :: d :: _ => d = ':' || d = '='
  | _ => false

/-- Does `coding:` or `coding=` occur in the character list, with no newline
before it?  This is `.*coding[:=]` of the pattern (`.` does not match a
newline). -/
def hasCodingMark : List Char → Bool
  | [] => false
  | c :: tail => startsCodingMark (c :: tail) || (!(c = '\n') && hasCodingMark tail)

/-- `re.search(r'^\s*#.*coding[:=]', physical_line)` as a Boolean: optional
whitespace, then `#`, then `coding:`/`coding=` later on the same line. -/
def codingDeclMatch (physical_line : String) : Bool :=
  match physical_line.data.dropWhile pySpace with
  | '#' :: tail => hasCodingMark tail
  | _ => false

/-- `check_non_default_encoding` (flake8_eyeo.py lines 366-368): the finding
is returned only when the 1-based line number is at most 2 and the line
matches the coding pattern; otherwise the function returns `None`. -/
def check_non_default_encoding (physical_line : String) (line_number : Nat) :
    Option (Nat × Msg) :=
  if line_number ≤ 2 && codingDeclMatch physical_line then some (0, Msg.a303)
  else none

/-- Claim C9: for every physical line with line number greater than 2 the
encoding check returns nothing, even if the line matches the coding
pattern. -/
theorem c9_encoding_line_limit (physical_line : String) (line_number : Nat)
    (h : 2 < line_number) :
    check_non_default_encoding physical_line line_number = none := by
  unfold check_non_default_encoding
  have hn : (line_number ≤ 2) = False := by simp; omega
  simp [hn]

/-- Witness for claim C9 at a concrete input: line 3 containing a coding
declaration that does match the pattern still yields nothing. -/
theorem c9_witness :
    2 < 3 ∧
    codingDeclMatch "# coding: utf-8" = true ∧
    check_non_default_encoding "# coding: utf-8" 3 = none :=
  ⟨by decide, by decide, c9_encoding_line_limit "# coding: utf-8" 3 (by decide)⟩


/-- Token kinds of the tokenize module that the two token-line checks
distinguish; `commentT`/`newlineT`/`numberT` stand in for the remaining
kinds (only INDENT, DEDENT, STRING, NAME and OP are treated specially). -/
inductive TokKind where
  | indent
  | dedent
  | stringT
  | nameT
  | op
  | numberT
  | newlineT
  | commentT
  deriving DecidableEq

/-- One token 5-tuple `(kind, string, start, end, line)` of the tokenize
module (the trailing `line` member is never used by the translated checks
and is omitted); positions are (row, column). -/
structure Tok where
  kind : TokKind
  text : String
  startP : Nat × Nat
  endP : Nat × Nat
  deriving DecidableEq

/-- A character of the class `[rub]` with `re.IGNORECASE`. -/
def isRub (c : Char) : Bool :=
  c = 'r' || c = 'u' || c = 'b' || c = 'R' || c = 'U' || c = 'B'

/-- A character of the class `[\'"]`. -/
def isQuoteChar (c : Char) : Bool := c = '\'' || c = '"'

/-- Try to split `rest` as `quote ++ text ++ quote` with a quote group of
exactly `n` quote characters, the backreference `\2$` forcing the same `n`
characters at the end (`(.*)` is unambiguous because the backreference is
anchored at the end). -/
def tryQuoteLen (rest : List Char) (n : Nat) : Option (List Char × List Char) :=
  let q := rest.take n
  if q.length == n && q.all isQuoteChar then
    let body := rest.drop n
    if decide (n ≤ body.length) && body.drop (body.length - n) == q then
      some (q, body.take (body.length - n))
    else none
  else none

/-- `re.search(r'^([rub]*)([\'"]{1,3})(.*)\2$', token, re.IGNORECASE |
re.DOTALL)` (flake8_eyeo.py lines 385-387), returning the three groups
(prefixes, quote, text).  The prefix group is the maximal run of `[rub]`
characters (backtracking it can never help, since a prefix character is
never a quote character), and the quote group is tried greedily from three
characters down to one. -/
def matchStringTok (s : String) : Option (String × String × String) :=
  let cs := s.data
  let pfxs := cs.takeWhile isRub
  let rest := cs.drop pfxs.length
  match tryQuoteLen rest 3 with
  | some (q, txt) => some (String.mk pfxs, String.mk q, String.mk txt)
  | none =>
      match tryQuoteLen rest 2 with
      | some (q, txt) => some (String.mk pfxs, String.mk q, String.mk txt)
      | none =>
          match tryQuoteLen rest 1 with
          | some (q, txt) => some (String.mk pfxs, String.mk q, String.mk txt)
          | none => none

/-- `prefixes.lower()`. -/
def lowerStr (s : String) : String := String.mk (s.data.map Char.toLower)

/-- `re.search(r'^(?:(?:def|class)\s|$)', previous_logical)` (flake8_eyeo.py
lines 395-396) as a Boolean: the previous logical line is empty (or a bare
newline, which `$` also matches at position 0), or starts with `def` or
`class` followed by one whitespace character. -/
def docstringPrev (s : String) : Bool :=
  match s.data with
  | [] => true
  | ['\n'] => true
  | 'd' :: 'e' :: 'f' :: c :: _ => pySpace c
  | 'c' :: 'l' :: 'a' :: 's' :: 's' :: c :: _ => pySpace c
  | _ => false

/-- The single-quote and double-quote one-character strings. -/
def sqStr : String := String.mk ['\'']

def dqStr : String := String.mk ['"']

/-- Is a finding an A112 finding? -/
def isA112f (f : (Nat × Nat) × Msg) : Bool :=
  match f.2 with
  | Msg.a112 => true
  | _ => false

/-- `ascii(eval(literal)) != literal` (flake8_eyeo.py line 414): `asciiEval`
stands for the host interpreter's `ascii(eval(...))`, `none` modelling an
exception (uncaught by the source, so it ends the generator). -/
def asciiCheck (py3 : Bool) (asciiEval : String → Option String) (p : Nat × Nat)
    (lit : String) : List ((Nat × Nat) × Msg) × Bool :=
  match asciiEval lit with
  | none => ([], true)
  | some r => (if !(r == lit) then [(p, Msg.a110repr py3)] else [], false)

theorem asciiCheck_no_a112 (py3 : Bool) (asciiEval : String → Option String)
    (p : Nat × Nat) (lit : String)
    (h2 : ∀ str, (asciiEval str).isSome = true) :
    (asciiCheck py3 asciiEval p lit).2 = false ∧
    ∀ f ∈ (asciiCheck py3 asciiEval p lit).1, isA112f f = false := by
  unfold asciiCheck
  rcases h3 : asciiEval lit with _ | r
  · have := h2 lit
    rw [h3] at this
    simp at this
  · constructor
    · simp
    · intro f hf
      simp only at hf
      rcases hr : (!(r == lit)) <;> rw [hr] at hf <;> simp at hf
      rw [hf]
      rfl

/-- The part of the `check_quotes` string-token handling that follows the
unconditional A112 check (flake8_eyeo.py lines 395-416): docstrings and
multi-line strings are ignored, raw strings get the A110 single-quote rule,
and any other literal is reconstructed and compared against
`ascii(eval(literal))`.  Returns (findings, crashed). -/
def quoteBranch (py3 : Bool) (asciiEval : String → Option String) (prevLogical : String)
    (hasUL : Bool) (t : Tok) (firstTok : Bool) (pfxs quo txt : String) :
    List ((Nat × Nat) × Msg) × Bool :=
  if firstTok && docstringPrev prevLogical then ([], false)
  else if !(t.startP.1 == t.endP.1) then ([], false)
  else if pfxs.data.contains 'r' then
    if !(quo == sqStr) && !(quo == dqStr && txt.data.contains '\'') then
      ([(t.startP, Msg.a110raw)], false)
    else ([], false)
  else
    let pfx :=
      if py3 then (if pfxs.data.contains 'b' then "b" else "")
      else (if pfxs.data.contains 'u' || (hasUL && !pfxs.data.contains 'b')
            then "u" else "")
    asciiCheck py3 asciiEval t.startP (pfx ++ quo ++ txt ++ quo)

/-- The token loop of `check_quotes` (flake8_eyeo.py lines 380-418):
INDENT/DEDENT tokens are skipped without clearing the first-token flag; for
a STRING token the groups are re-derived (a failed match would raise on
`match.groups()`: modelled as a crash), A112 is yielded for a `u` prefix
before anything else, then `quoteBranch` runs; every non-skipped token
clears the first-token flag.  Returns (findings yielded, crashed); a crash
ends the generator, keeping the findings yielded before it. -/
def quotesLoop (py3 : Bool) (asciiEval : String → Option String) (prevLogical : String)
    (hasUL : Bool) : List Tok → Bool → List ((Nat × Nat) × Msg) × Bool
  | [], _ => ([], false)
  | t :: rest, firstTok =>
      if t.kind == TokKind.indent || t.kind == TokKind.dedent then
        quotesLoop py3 asciiEval prevLogical hasUL rest firstTok
      else if t.kind == TokKind.stringT then
        match matchStringTok t.text with
        | none => ([], true)
        | some (pfxsRaw, quo, txt) =>
            let pfxs := lowerStr pfxsRaw
            let uFind : List ((Nat × Nat) × Msg) :=
              if pfxs.data.contains 'u' then [(t.startP, Msg.a112)] else []
            let branch := quoteBranch py3 asciiEval prevLogical hasUL t firstTok pfxs quo txt
            if branch.2 then (uFind ++ branch.1, true)
            else
              let r2 := quotesLoop py3 asciiEval prevLogical hasUL rest false
              (uFind ++ branch.1 ++ r2.1, r2.2)
      else
        quotesLoop py3 asciiEval prevLogical hasUL rest false

/-- The result of `check_quotes` on one logical line: the findings, whether
an uncaught exception ended the generator, and the value of the
`has_unicode_literals` state after the line. -/
structure QuotesResult where
  findings : List ((Nat × Nat) × Msg)
  crashed : Bool
  unicodeLiteralsSeen : Bool
  deriving DecidableEq

/-- `check_quotes` (flake8_eyeo.py lines 371-418): record a
`from __future__ import ... unicode_literals` line in the per-file state
(read back by the same call), then run the token loop with the first-token
flag set. -/
def check_quotes (py3 : Bool) (asciiEval : String → Option String) (tokens : List Tok)
    (previous_logical : String) (hasUL : Bool) : QuotesResult :=
  let tokenStrings := tokens.map (fun t => t.text)
  let futureImport := tokenStrings.take 3 == ["from", "__future__", "import"]
  let hasUL2 := hasUL || (futureImport && tokenStrings.contains "unicode_literals")
  let r := quotesLoop py3 asciiEval previous_logical hasUL2 tokens true
  ⟨r.1, r.2, hasUL2⟩

/-- The A112 findings the (amended) claim C7 describes: one finding at the
start of every string token whose lower-cased prefix group contains `u`,
docstrings and multi-line literals included. -/
def a112spec (tokens : List Tok) : List ((Nat × Nat) × Msg) :=
  tokens.filterMap (fun t =>
    if t.kind == TokKind.stringT then
      match matchStringTok t.text with
      | some (pfxsRaw, _, _) =>
          if (lowerStr pfxsRaw).data.contains 'u' then some (t.startP, Msg.a112)
          else none
      | none => none
    else none)

theorem quoteBranch_no_a112 (py3 : Bool) (asciiEval : String → Option String)
    (prevLogical : String) (hasUL : Bool) (t : Tok) (firstTok : Bool)
    (pfxs quo txt : String)
    (h2 : ∀ str, (asciiEval str).isSome = true) :
    (quoteBranch py3 asciiEval prevLogical hasUL t firstTok pfxs quo txt).2 = false ∧
    ∀ f ∈ (quoteBranch py3 asciiEval prevLogical hasUL t firstTok pfxs quo txt).1,
      isA112f f = false := by
  unfold quoteBranch
  (repeat' split) <;>
    first
      | exact asciiCheck_no_a112 py3 asciiEval t.startP _ h2
      | simp_all [isA112f]

theorem quotesLoop_cons (py3 : Bool) (asciiEval : String → Option String)
    (prevLogical : String) (hasUL : Bool) (t : Tok) (rest : List Tok) (firstTok : Bool) :
    quotesLoop py3 asciiEval prevLogical hasUL (t :: rest) firstTok
      = if t.kind == TokKind.indent || t.kind == TokKind.dedent then
          quotesLoop py3 asciiEval prevLogical hasUL rest firstTok
        else if t.kind == TokKind.stringT then
          match matchStringTok t.text with
          | none => ([], true)
          | some (pfxsRaw, quo, txt) =>
              let pfxs := lowerStr pfxsRaw
              let uFind : List ((Nat × Nat) × Msg) :=
                if pfxs.data.contains 'u' then [(t.startP, Msg.a112)] else []
              let branch := quoteBranch py3 asciiEval prevLogical hasUL t firstTok pfxs quo txt
              if branch.2 then (uFind ++ branch.1, true)
              else
                let r2 := quotesLoop py3 asciiEval prevLogical hasUL rest false
                (uFind ++ branch.1 ++ r2.1, r2.2)
        else quotesLoop py3 asciiEval prevLogical hasUL rest false := by
  rw [quotesLoop]

theorem quotesLoop_a112 (py3 : Bool) (asciiEval : String → Option String)
    (prevLogical : String) (hasUL : Bool) :
    ∀ (toks : List Tok) (firstTok : Bool),
      (∀ t ∈ toks, t.kind = TokKind.stringT → (matchStringTok t.text).isSome = true) →
      (∀ str, (asciiEval str).isSome = true) →
      (quotesLoop py3 asciiEval prevLogical hasUL toks firstTok).2 = false ∧
      ((quotesLoop py3 asciiEval prevLogical hasUL toks firstTok).1).filter isA112f
        = a112spec toks := by
  intro toks
  induction toks with
  | nil => intro firstTok h1 h2; simp [quotesLoop, a112spec]
  | cons t rest ih =>
      intro firstTok h1 h2
      have h1rest : ∀ u ∈ rest, u.kind = TokKind.stringT →
          (matchStringTok u.text).isSome = true :=
        fun u hu => h1 u (List.mem_cons_of_mem t hu)
      rw [quotesLoop_cons]
      rcases hk : (t.kind == TokKind.indent || t.kind == TokKind.dedent) with _ | _
      · rcases hs : (t.kind == TokKind.stringT) with _ | _
        · simp only [hk, hs, Bool.false_eq_true, if_false]
          have hr := ih false h1rest h2
          refine ⟨hr.1, ?_⟩
          rw [hr.2]
          unfold a112spec
          rw [List.filterMap_cons]
          simp [hs]
        · have hmatch := h1 t (List.mem_cons_self t rest) (by simpa using hs)
          rcases hm : matchStringTok t.text with _ | ⟨pfxsRaw, quo, txt⟩
          · rw [hm] at hmatch; simp at hmatch
          · have hb := quoteBranch_no_a112 py3 asciiEval prevLogical hasUL t firstTok
              (lowerStr pfxsRaw) quo txt h2
            have hr := ih false h1rest h2
            simp only [hk, hs, Bool.false_eq_true, if_false, if_true, hm, hb.1]
            refine ⟨hr.1, ?_⟩
            rw [List.filter_append, List.filter_append, hr.2]
            have hbf : ((quoteBranch py3 asciiEval prevLogical hasUL t firstTok
                (lowerStr pfxsRaw) quo txt).1).filter isA112f = [] := by
              rw [List.filter_eq_nil_iff]
              intro f hf
              simp [hb.2 f hf]
            rw [hbf]
            unfold a112spec
            rw [List.filterMap_cons]
            simp only [hs, hm]
            rcases hu : (lowerStr pfxsRaw).data.contains 'u' <;>
              simp [hu, isA112f]
      · simp only [hk, if_true]
        have hr := ih firstTok h1rest h2
        refine ⟨hr.1, ?_⟩
        rw [hr.2]
        unfold a112spec
        rw [List.filterMap_cons]
        have hknot : (t.kind == TokKind.stringT) = false := by
          rcases hkk : t.kind <;> rw [hkk] at hk <;> simp_all
        simp [hknot]

/-- Claim C7 (amended): `check_quotes` emits one A112 finding for every
`u`-prefixed string token, including docstrings and tokens of multi-line
literals — the A112 check runs before the docstring/multi-line dispatch.
The hypotheses say that every string token of the line matches the string
regular expression and that the host `ascii(eval(...))` call returns (both
hold for the token streams the tokenize module produces). -/
theorem c7_a112_unconditional (py3 : Bool) (asciiEval : String → Option String)
    (tokens : List Tok) (previous_logical : String) (hasUL : Bool)
    (h1 : ∀ t ∈ tokens, t.kind = TokKind.stringT → (matchStringTok t.text).isSome = true)
    (h2 : ∀ str, (asciiEval str).isSome = true) :
    ((check_quotes py3 asciiEval tokens previous_logical hasUL).findings).filter isA112f
      = a112spec tokens := by
  unfold check_quotes
  exact (quotesLoop_a112 py3 asciiEval previous_logical _ tokens true h1 h2).2

/-- A `u`-prefixed triple-quoted string token spanning two physical lines
(rows 1 to 2): `u'''a<newline>b'''`. -/
def tok7 : Tok :=
  ⟨TokKind.stringT,
   String.mk ['u', '\'', '\'', '\'', 'a', '\n', 'b', '\'', '\'', '\''],
   (1, 0), (2, 4)⟩

/-- Witness for claim C7's theorem at a concrete input: a single multi-line
`u`-string token, with both hypotheses discharged. -/
theorem c7_witness :
    ((check_quotes true (fun str => some str) [tok7] "x = 1" false).findings).filter isA112f
      = a112spec [tok7] :=
  c7_a112_unconditional true (fun str => some str) [tok7] "x = 1" false
    (by decide) (fun str => rfl)

/-- Claim C7, counterexample: the token `tok7` is part of a multi-line
literal (its start row differs from its end row) and is not a docstring
(the previous logical line is an assignment), yet `check_quotes` emits an
A112 finding on it — the claim says A112 is emitted for no string token that
is part of a multi-line literal. -/
theorem c7_counterexample :
    tok7.startP.1 ≠ tok7.endP.1 ∧
    (check_quotes true (fun str => some str) [tok7] "x = 1" false).findings
      = [((1, 0), Msg.a112)] := by
  constructor
  · decide
  · decide


/-- The main loop of `check_redundant_parenthesis` once the `if`/`elif`/
`while` keyword and the opening parenthesis have been recognised
(flake8_eyeo.py lines 426-469, iterations with `statement` set): skip
INDENT/DEDENT; stop (no finding) when a token ends past the first physical
line; track parenthesis nesting; stop on a level-1 comma (tuple); when the
outer parenthesis closes, return the A111 finding if the next token is the
colon and stop otherwise.  `tokens[i + 1]` with no next token raises
(modelled by `Except.error`). -/
def rpInner (startLine : Nat) (stmt : String) (pos : Nat × Nat) :
    List Tok → Int → Except Unit (List ((Nat × Nat) × Msg))
  | [], _ => .ok []
  | t :: rest, level =>
      if t.kind == TokKind.indent || t.kind == TokKind.dedent then
        rpInner startLine stmt pos rest level
      else if decide (startLine < t.endP.1) then .ok []
      else if t.kind == TokKind.op then
        if t.text == "," then
          (if level == 1 then .ok [] else rpInner startLine stmt pos rest level)
        else if t.text == "(" then rpInner startLine stmt pos rest (level + 1)
        else if t.text == ")" then
          (if level - 1 == 0 then
            match rest with
            | nt :: _ =>
                if nt.kind == TokKind.op && nt.text == ":" then
                  .ok [(pos, Msg.a111 stmt)]
                else .ok []
            | [] => .error ()
           else rpInner startLine stmt pos rest (level - 1))
        else rpInner startLine stmt pos rest level
      else rpInner startLine stmt pos rest level

/-- The opening phase of `check_redundant_parenthesis` (flake8_eyeo.py lines
426-446, iterations with `statement is None`): skip INDENT/DEDENT; stop
unless the first real token is the `if`/`elif`/`while` keyword followed by
`(` and the parentheses are not an empty tuple; then run the main loop from
the opening parenthesis with level 0. -/
def rpStart (startLine : Nat) : List Tok → Except Unit (List ((Nat × Nat) × Msg))
  | [] => .ok []
  | t :: rest =>
      if t.kind == TokKind.indent || t.kind == TokKind.dedent then
        rpStart startLine rest
      else if !(t.kind == TokKind.nameT
          && (t.text == "if" || t.text == "elif" || t.text == "while")) then
        .ok []
      else
        match rest with
        | [] => .error ()
        | nt :: rest2 =>
            if !(nt.kind == TokKind.op && nt.text == "(") then .ok []
            else
              match rest2 with
              | [] => .error ()
              | t2 :: _ =>
                  if t2.kind == TokKind.op && t2.text == ")" then .ok []
                  else rpInner startLine t.text nt.startP (nt :: rest2) 0

/-- `check_redundant_parenthesis` (flake8_eyeo.py lines 421-469):
`start_line` is the start row of the first token (`tokens[0]` of an empty
token list raises). -/
def check_redundant_parenthesis (tokens : List Tok) :
    Except Unit (List ((Nat × Nat) × Msg)) :=
  match tokens with
  | [] => .error ()
  | t0 :: _ => rpStart t0.startP.1 tokens

/-- The number of findings a token-line check returned (none when it
raised). -/
def findingCount : Except Unit (List ((Nat × Nat) × Msg)) → Nat
  | .error _ => 0
  | .ok l => l.length

/-- The conditions under which the main loop scans the parenthesized
content without stopping: every token ends on the first physical line, the
running nesting level (starting at `level`, with the outer parenthesis
already counted) never returns to zero inside, no comma occurs at nesting
level 1, and the content ends with the level back at 1 — i.e. a fully
parenthesized, single-line, non-tuple expression. -/
def innerOk (startLine : Nat) : List Tok → Int → Bool
  | [], level => level == 1
  | t :: rest, level =>
      if t.kind == TokKind.indent || t.kind == TokKind.dedent then
        innerOk startLine rest level
      else if decide (startLine < t.endP.1) then false
      else if t.kind == TokKind.op then
        if t.text == "," then !(level == 1) && innerOk startLine rest level
        else if t.text == "(" then innerOk startLine rest (level + 1)
        else if t.text == ")" then
          decide (1 ≤ level - 1) && innerOk startLine rest (level - 1)
        else innerOk startLine rest level
      else innerOk startLine rest level

theorem rpInner_cons (startLine : Nat) (stmt : String) (pos : Nat × Nat)
    (t : Tok) (rest : List Tok) (level : Int) :
    rpInner startLine stmt pos (t :: rest) level
      = (if t.kind == TokKind.indent || t.kind == TokKind.dedent then
          rpInner startLine stmt pos rest level
        else if decide (startLine < t.endP.1) then .ok []
        else if t.kind == TokKind.op then
          if t.text == "," then
            (if level == 1 then .ok [] else rpInner startLine stmt pos rest level)
          else if t.text == "(" then rpInner startLine stmt pos rest (level + 1)
          else if t.text == ")" then
            (if level - 1 == 0 then
              match rest with
              | nt :: _ =>
                  if nt.kind == TokKind.op && nt.text == ":" then
                    .ok [(pos, Msg.a111 stmt)]
                  else .ok []
              | [] => .error ()
             else rpInner startLine stmt pos rest (level - 1))
          else rpInner startLine stmt pos rest level
        else rpInner startLine stmt pos rest level) := by
  rw [rpInner.eq_def]

theorem rpStart_cons (startLine : Nat) (t : Tok) (rest : List Tok) :
    rpStart startLine (t :: rest)
      = (if t.kind == TokKind.indent || t.kind == TokKind.dedent then
          rpStart startLine rest
        else if !(t.kind == TokKind.nameT
            && (t.text == "if" || t.text == "elif" || t.text == "while")) then
          .ok []
        else
          match rest with
          | [] => .error ()
          | nt :: rest2 =>
              if !(nt.kind == TokKind.op && nt.text == "(") then .ok []
              else
                match rest2 with
                | [] => .error ()
                | t2 :: _ =>
                    if t2.kind == TokKind.op && t2.text == ")" then .ok []
                    else rpInner startLine t.text nt.startP (nt :: rest2) 0) := by
  rw [rpStart.eq_def]

theorem innerOk_cons (startLine : Nat) (t : Tok) (rest : List Tok) (level : Int) :
    innerOk startLine (t :: rest) level
      = (if t.kind == TokKind.indent || t.kind == TokKind.dedent then
          innerOk startLine rest level
        else if decide (startLine < t.endP.1) then false
        else if t.kind == TokKind.op then
          if t.text == "," then !(level == 1) && innerOk startLine rest level
          else if t.text == "(" then innerOk startLine rest (level + 1)
          else if t.text == ")" then
            decide (1 ≤ level - 1) && innerOk startLine rest (level - 1)
          else innerOk startLine rest level
        else innerOk startLine rest level) := by
  rw [innerOk.eq_def]

theorem rpInner_count (startLine : Nat) (stmt : String) (pos : Nat × Nat) :
    ∀ (l : List Tok) (level : Int),
      findingCount (rpInner startLine stmt pos l level) ≤ 1 := by
  intro l
  induction l with
  | nil => intro level; simp [rpInner, findingCount]
  | cons t rest ih =>
      intro level
      rw [rpInner_cons]
      (repeat' split) <;> first | exact ih _ | simp [findingCount]

theorem rpStart_count (startLine : Nat) :
    ∀ l : List Tok, findingCount (rpStart startLine l) ≤ 1 := by
  intro l
  induction l with
  | nil => simp [rpStart, findingCount]
  | cons t rest ih =>
      rw [rpStart_cons]
      (repeat' split) <;>
        first
          | exact ih
          | exact rpInner_count _ _ _ _ _
          | simp [findingCount]

theorem rpInner_innerOk (startLine : Nat) (stmt : String) (pos : Nat × Nat)
    (rp colon : Tok) (tail : List Tok)
    (hrp : rp.kind = TokKind.op) (hrpt : rp.text = ")")
    (hrpl : rp.endP.1 ≤ startLine)
    (hc : colon.kind = TokKind.op) (hct : colon.text = ":") :
    ∀ (inner : List Tok) (level : Int),
      innerOk startLine inner level = true →
      rpInner startLine stmt pos (inner ++ rp :: colon :: tail) level
        = .ok [(pos, Msg.a111 stmt)] := by
  intro inner
  induction inner with
  | nil =>
      intro level hok
      have hl : level = 1 := by simpa [innerOk] using hok
      subst hl
      have hnl : ¬ (startLine < rp.endP.1) := Nat.not_lt.2 hrpl
      rw [List.nil_append, rpInner_cons]
      simp [hrp, hrpt, hnl, hc, hct]
  | cons t inner ih =>
      intro level hok
      rw [innerOk_cons] at hok
      rw [List.cons_append, rpInner_cons]
      by_cases h1 : (t.kind == TokKind.indent || t.kind == TokKind.dedent) = true
      · rw [if_pos h1] at hok ⊢
        exact ih level hok
      · rw [if_neg h1] at hok ⊢
        by_cases h2 : (decide (startLine < t.endP.1)) = true
        · rw [if_pos h2] at hok
          exact absurd hok (by simp)
        · rw [if_neg h2] at hok ⊢
          by_cases h3 : (t.kind == TokKind.op) = true
          · rw [if_pos h3] at hok ⊢
            by_cases h4 : (t.text == ",") = true
            · rw [if_pos h4] at hok ⊢
              rw [Bool.and_eq_true] at hok
              have hne : (level == 1) = false := by
                rcases hb : (level == 1) with _ | _
                · rfl
                · rw [hb] at hok; simp at hok
              rw [if_neg (by rw [hne]; simp)]
              exact ih level hok.2
            · rw [if_neg h4] at hok ⊢
              by_cases h5 : (t.text == "(") = true
              · rw [if_pos h5] at hok ⊢
                exact ih (level + 1) hok
              · rw [if_neg h5] at hok ⊢
                by_cases h6 : (t.text == ")") = true
                · rw [if_pos h6] at hok ⊢
                  rw [Bool.and_eq_true] at hok
                  have hge : (1 : Int) ≤ level - 1 := by
                    have := hok.1
                    simpa using this
                  rw [if_neg (by simp; omega)]
                  exact ih (level - 1) hok.2
                · rw [if_neg h6] at hok ⊢
                  exact ih level hok
          · rw [if_neg h3] at hok ⊢
            exact ih level hok

theorem innerOk_head (startLine : Nat) (t : Tok) (inner : List Tok)
    (hok : innerOk startLine (t :: inner) 1 = true) :
    (t.kind == TokKind.op && t.text == ")") = false := by
  rcases hq : (t.kind == TokKind.op && t.text == ")") with _ | _
  · rfl
  · exfalso
    rw [Bool.and_eq_true] at hq
    have hkop : t.kind = TokKind.op := by simpa using hq.1
    have htxt : t.text = ")" := by simpa using hq.2
    rw [innerOk_cons] at hok
    by_cases hl : startLine < t.endP.1 <;> simp [hkop, htxt, hl] at hok

/-- The partial run of the main loop over a token segment: `some lv` means
the loop processes every token of the segment without stopping (no
INDENT/DEDENT-skipped token ends past the first line, no level-1 comma, the
outer parenthesis never closes) and reaches the end of the segment with the
nesting level at `lv`; `none` means the loop would stop, return or raise
somewhere inside the segment. -/
def innerScan (startLine : Nat) : List Tok → Int → Option Int
  | [], level => some level
  | t :: rest, level =>
      if t.kind == TokKind.indent || t.kind == TokKind.dedent then
        innerScan startLine rest level
      else if decide (startLine < t.endP.1) then none
      else if t.kind == TokKind.op then
        if t.text == "," then
          (if level == 1 then none else innerScan startLine rest level)
        else if t.text == "(" then innerScan startLine rest (level + 1)
        else if t.text == ")" then
          (if level - 1 == 0 then none else innerScan startLine rest (level - 1))
        else innerScan startLine rest level
      else innerScan startLine rest level

theorem innerScan_cons (startLine : Nat) (t : Tok) (rest : List Tok) (level : Int) :
    innerScan startLine (t :: rest) level
      = (if t.kind == TokKind.indent || t.kind == TokKind.dedent then
          innerScan startLine rest level
        else if decide (startLine < t.endP.1) then none
        else if t.kind == TokKind.op then
          if t.text == "," then
            (if level == 1 then none else innerScan startLine rest level)
          else if t.text == "(" then innerScan startLine rest (level + 1)
          else if t.text == ")" then
            (if level - 1 == 0 then none else innerScan startLine rest (level - 1))
          else innerScan startLine rest level
        else innerScan startLine rest level) := by
  rw [innerScan.eq_def]

/-- Scan-through: when the main loop traverses a segment without stopping,
it continues on the rest of the tokens with the level the scan computed. -/
theorem rpInner_scan (startLine : Nat) (stmt : String) (pos : Nat × Nat) :
    ∀ (pre : List Tok) (level lv : Int),
      innerScan startLine pre level = some lv →
      ∀ suffix : List Tok,
        rpInner startLine stmt pos (pre ++ suffix) level
          = rpInner startLine stmt pos suffix lv := by
  intro pre
  induction pre with
  | nil =>
      intro level lv h suffix
      simp only [innerScan, Option.some.injEq] at h
      subst h
      rw [List.nil_append]
  | cons t pre ih =>
      intro level lv h suffix
      rw [innerScan_cons] at h
      rw [List.cons_append, rpInner_cons]
      by_cases h1 : (t.kind == TokKind.indent || t.kind == TokKind.dedent) = true
      · rw [if_pos h1] at h ⊢
        exact ih level lv h suffix
      · rw [if_neg h1] at h ⊢
        by_cases h2 : (decide (startLine < t.endP.1)) = true
        · rw [if_pos h2] at h
          exact absurd h (by simp)
        · rw [if_neg h2] at h ⊢
          by_cases h3 : (t.kind == TokKind.op) = true
          · rw [if_pos h3] at h ⊢
            by_cases h4 : (t.text == ",") = true
            · rw [if_pos h4] at h ⊢
              by_cases h5 : (level == 1) = true
              · rw [if_pos h5] at h
                exact absurd h (by simp)
              · rw [if_neg h5] at h ⊢
                exact ih level lv h suffix
            · rw [if_neg h4] at h ⊢
              by_cases h6 : (t.text == "(") = true
              · rw [if_pos h6] at h ⊢
                exact ih (level + 1) lv h suffix
              · rw [if_neg h6] at h ⊢
                by_cases h7 : (t.text == ")") = true
                · rw [if_pos h7] at h ⊢
                  by_cases h8 : (level - 1 == 0) = true
                  · rw [if_pos h8] at h
                    exact absurd h (by simp)
                  · rw [if_neg h8] at h ⊢
                    exact ih (level - 1) lv h suffix
                · rw [if_neg h7] at h ⊢
                  exact ih level lv h suffix
          · rw [if_neg h3] at h ⊢
            exact ih level lv h suffix

theorem innerScan_head (startLine : Nat) (t : Tok) (pre : List Tok) (lv : Int)
    (h : innerScan startLine (t :: pre) 1 = some lv) :
    (t.kind == TokKind.op && t.text == ")") = false := by
  rcases hq : (t.kind == TokKind.op && t.text == ")") with _ | _
  · rfl
  · exfalso
    rw [Bool.and_eq_true] at hq
    have hkop : t.kind = TokKind.op := by simpa using hq.1
    have htxt : t.text = ")" := by simpa using hq.2
    rw [innerScan_cons] at h
    by_cases hl : startLine < t.endP.1 <;> simp [hkop, htxt, hl] at h

/-- The opening phase passes for an `if`/`elif`/`while` keyword followed by
`(` and a first condition token that is not `)`: the check reduces to the
main loop started at the opening parenthesis with level 0. -/
theorem rpStart_enter (kw lp i0 : Tok) (rest3 : List Tok)
    (hkw : kw.kind = TokKind.nameT)
    (hkwt : kw.text = "if" ∨ kw.text = "elif" ∨ kw.text = "while")
    (hlp : lp.kind = TokKind.op) (hlpt : lp.text = "(")
    (hi0 : (i0.kind == TokKind.op && i0.text == ")") = false) :
    check_redundant_parenthesis (kw :: lp :: i0 :: rest3)
      = rpInner kw.startP.1 kw.text lp.startP (lp :: i0 :: rest3) 0 := by
  rw [show check_redundant_parenthesis (kw :: lp :: i0 :: rest3)
        = rpStart kw.startP.1 (kw :: lp :: i0 :: rest3) from rfl]
  rw [rpStart_cons]
  have h1 : (kw.kind == TokKind.indent || kw.kind == TokKind.dedent) = false := by
    simp [hkw]
  have h2 : (!(kw.kind == TokKind.nameT
      && (kw.text == "if" || kw.text == "elif" || kw.text == "while"))) = false := by
    rcases hkwt with h | h | h <;> simp [hkw, h]
  have h3 : (!(lp.kind == TokKind.op && lp.text == "(")) = false := by
    simp [hlp, hlpt]
  simp only [h1, h2, h3, hi0, Bool.false_eq_true, if_false]

/-- Processing the opening parenthesis itself: not INDENT/DEDENT, on the
first line, an OP `(`, so the level becomes 1. -/
theorem rpInner_lparen (startLine : Nat) (stmt : String) (pos : Nat × Nat)
    (lp : Tok) (rest : List Tok)
    (hlp : lp.kind = TokKind.op) (hlpt : lp.text = "(")
    (hlpl : lp.endP.1 ≤ startLine) :
    rpInner startLine stmt pos (lp :: rest) 0 = rpInner startLine stmt pos rest 1 := by
  rw [rpInner_cons]
  have h5 : (lp.kind == TokKind.indent || lp.kind == TokKind.dedent) = false := by
    simp [hlp]
  have h6 : ¬ (startLine < lp.endP.1) := Nat.not_lt.2 hlpl
  simp [h5, h6, hlp, hlpt]

/-- The token list of the logical line `if (x):`. -/
def tokIfX : List Tok :=
  [⟨TokKind.nameT, "if", (1, 0), (1, 2)⟩,
   ⟨TokKind.op, "(", (1, 3), (1, 4)⟩,
   ⟨TokKind.nameT, "x", (1, 4), (1, 5)⟩,
   ⟨TokKind.op, ")", (1, 5), (1, 6)⟩,
   ⟨TokKind.op, ":", (1, 6), (1, 7)⟩,
   ⟨TokKind.newlineT, "\n", (1, 7), (1, 8)⟩]

/-- The token list of the logical line `if (x, y):` (parenthesized tuple). -/
def tokIfXY : List Tok :=
  [⟨TokKind.nameT, "if", (1, 0), (1, 2)⟩,
   ⟨TokKind.op, "(", (1, 3), (1, 4)⟩,
   ⟨TokKind.nameT, "x", (1, 4), (1, 5)⟩,
   ⟨TokKind.op, ",", (1, 5), (1, 6)⟩,
   ⟨TokKind.nameT, "y", (1, 7), (1, 8)⟩,
   ⟨TokKind.op, ")", (1, 8), (1, 9)⟩,
   ⟨TokKind.op, ":", (1, 9), (1, 10)⟩,
   ⟨TokKind.newlineT, "\n", (1, 10), (1, 11)⟩]

/-- The token list of the logical line `if (x\n   and y):` — the condition
extends onto a second physical line. -/
def tokIfMulti : List Tok :=
  [⟨TokKind.nameT, "if", (1, 0), (1, 2)⟩,
   ⟨TokKind.op, "(", (1, 3), (1, 4)⟩,
   ⟨TokKind.nameT, "x", (1, 4), (1, 5)⟩,
   ⟨TokKind.nameT, "and", (2, 3), (2, 6)⟩,
   ⟨TokKind.nameT, "y", (2, 7), (2, 8)⟩,
   ⟨TokKind.op, ")", (2, 8), (2, 9)⟩,
   ⟨TokKind.op, ":", (2, 9), (2, 10)⟩,
   ⟨TokKind.newlineT, "\n", (2, 10), (2, 11)⟩]

/-- Claim C8: the redundant-parenthesis check returns at most one finding
per logical line; it returns the A111 finding whenever the line is an
`if`/`elif`/`while` statement whose condition is a fully parenthesized,
non-empty, single-line, non-tuple expression whose outer parentheses close
right before the colon (the `innerOk` hypothesis), reported right after the
opening parenthesis; on the examples, `if (x):` yields one A111 finding
while `if (x, y):` (a tuple) yields none; and, generally, it returns no
finding when the parenthesized content reaches a comma at nesting level 1
(the scanned segment `pre` brings the level back to 1 without stopping, and
the next token is a comma — whatever follows), and no finding when the
expression extends past the first physical line (the scan reaches a
non-INDENT/DEDENT token ending on a later line — whatever follows); the
two-physical-line example `tokIfMulti` yields none. -/
theorem c8_redundant_parenthesis :
    (∀ tokens : List Tok, findingCount (check_redundant_parenthesis tokens) ≤ 1) ∧
    (∀ (kw lp rp colonT : Tok) (inner tail : List Tok),
      kw.kind = TokKind.nameT →
      (kw.text = "if" ∨ kw.text = "elif" ∨ kw.text = "while") →
      lp.kind = TokKind.op → lp.text = "(" → lp.endP.1 ≤ kw.startP.1 →
      rp.kind = TokKind.op → rp.text = ")" → rp.endP.1 ≤ kw.startP.1 →
      colonT.kind = TokKind.op → colonT.text = ":" →
      inner ≠ [] →
      innerOk kw.startP.1 inner 1 = true →
      check_redundant_parenthesis (kw :: lp :: (inner ++ rp :: colonT :: tail))
        = .ok [(lp.startP, Msg.a111 kw.text)]) ∧
    check_redundant_parenthesis tokIfX = .ok [((1, 3), Msg.a111 "if")] ∧
    check_redundant_parenthesis tokIfXY = .ok [] ∧
    (∀ (kw lp c : Tok) (pre rest : List Tok),
      kw.kind = TokKind.nameT →
      (kw.text = "if" ∨ kw.text = "elif" ∨ kw.text = "while") →
      lp.kind = TokKind.op → lp.text = "(" → lp.endP.1 ≤ kw.startP.1 →
      c.kind = TokKind.op → c.text = "," →
      innerScan kw.startP.1 pre 1 = some 1 →
      check_redundant_parenthesis (kw :: lp :: (pre ++ c :: rest)) = .ok []) ∧
    (∀ (kw lp m : Tok) (pre rest : List Tok) (lv : Int),
      kw.kind = TokKind.nameT →
      (kw.text = "if" ∨ kw.text = "elif" ∨ kw.text = "while") →
      lp.kind = TokKind.op → lp.text = "(" → lp.endP.1 ≤ kw.startP.1 →
      (m.kind == TokKind.indent || m.kind == TokKind.dedent) = false →
      kw.startP.1 < m.endP.1 →
      innerScan kw.startP.1 pre 1 = some lv →
      check_redundant_parenthesis (kw :: lp :: (pre ++ m :: rest)) = .ok []) ∧
    check_redundant_parenthesis tokIfMulti = .ok [] := by
  refine ⟨?_, ?_,
    by simp [check_redundant_parenthesis, tokIfX, rpStart_cons, rpInner_cons],
    by simp [check_redundant_parenthesis, tokIfXY, rpStart_cons, rpInner_cons],
    ?_, ?_,
    by simp [check_redundant_parenthesis, tokIfMulti, rpStart_cons, rpInner_cons]⟩
  · intro tokens
    rcases tokens with _ | ⟨t0, rest⟩
    · simp [check_redundant_parenthesis, findingCount]
    · exact rpStart_count _ _
  · intro kw lp rp colonT inner tail hkw hkwt hlp hlpt hlpl hrp hrpt hrpl hc hct hne hok
    rcases inner with _ | ⟨i0, irest⟩
    · exact absurd rfl hne
    · rw [show check_redundant_parenthesis
            (kw :: lp :: ((i0 :: irest) ++ rp :: colonT :: tail))
            = rpStart kw.startP.1 (kw :: lp :: ((i0 :: irest) ++ rp :: colonT :: tail))
          from rfl]
      rw [rpStart_cons]
      have h1 : (kw.kind == TokKind.indent || kw.kind == TokKind.dedent) = false := by
        simp [hkw]
      have h2 : (!(kw.kind == TokKind.nameT
          && (kw.text == "if" || kw.text == "elif" || kw.text == "while"))) = false := by
        rcases hkwt with h | h | h <;> simp [hkw, h]
      have h3 : (!(lp.kind == TokKind.op && lp.text == "(")) = false := by
        simp [hlp, hlpt]
      have h4 := innerOk_head kw.startP.1 i0 irest hok
      simp only [h1, h2, h3, h4, Bool.false_eq_true, if_false, List.cons_append]
      rw [rpInner_cons]
      have h5 : (lp.kind == TokKind.indent || lp.kind == TokKind.dedent) = false := by
        simp [hlp]
      have h6 : ¬ (kw.startP.1 < lp.endP.1) := Nat.not_lt.2 hlpl
      simp only [h5, h6, hlp, hlpt, Bool.false_eq_true, if_false, decide_eq_true_eq,
        decide_False]
      have hmain := rpInner_innerOk kw.startP.1 kw.text lp.startP rp colonT tail
        hrp hrpt hrpl hc hct (i0 :: irest) 1 hok
      simp only [List.cons_append] at hmain
      simpa using hmain
  · intro kw lp c pre rest hkw hkwt hlp hlpt hlpl hc hct hscan
    have hcomma : rpInner kw.startP.1 kw.text lp.startP (c :: rest) 1 = .ok [] := by
      rw [rpInner_cons]
      have hni : (c.kind == TokKind.indent || c.kind == TokKind.dedent) = false := by
        simp [hc]
      by_cases hl : kw.startP.1 < c.endP.1
      · simp [hni, hl]
      · simp [hni, hl, hc, hct]
    rcases pre with _ | ⟨i0, pre2⟩
    · have hi0 : (c.kind == TokKind.op && c.text == ")") = false := by
        simp [hct]
      rw [List.nil_append]
      rw [rpStart_enter kw lp c rest hkw hkwt hlp hlpt hi0]
      rw [rpInner_lparen kw.startP.1 kw.text lp.startP lp (c :: rest) hlp hlpt hlpl]
      exact hcomma
    · have hi0 := innerScan_head kw.startP.1 i0 pre2 1 hscan
      rw [show (i0 :: pre2) ++ c :: rest = i0 :: (pre2 ++ c :: rest) from rfl]
      rw [rpStart_enter kw lp i0 (pre2 ++ c :: rest) hkw hkwt hlp hlpt hi0]
      rw [rpInner_lparen kw.startP.1 kw.text lp.startP lp (i0 :: (pre2 ++ c :: rest))
        hlp hlpt hlpl]
      rw [show i0 :: (pre2 ++ c :: rest) = (i0 :: pre2) ++ (c :: rest) from rfl]
      rw [rpInner_scan kw.startP.1 kw.text lp.startP (i0 :: pre2) 1 1 hscan (c :: rest)]
      exact hcomma
  · intro kw lp m pre rest lv hkw hkwt hlp hlpt hlpl hmk hline hscan
    have hml : ∀ lv2 : Int,
        rpInner kw.startP.1 kw.text lp.startP (m :: rest) lv2 = .ok [] := by
      intro lv2
      rw [rpInner_cons]
      simp [hmk, hline]
    rcases pre with _ | ⟨i0, pre2⟩
    · by_cases hi0 : (m.kind == TokKind.op && m.text == ")") = true
      · rw [List.nil_append]
        rw [show check_redundant_parenthesis (kw :: lp :: m :: rest)
              = rpStart kw.startP.1 (kw :: lp :: m :: rest) from rfl]
        rw [rpStart_cons]
        have h1 : (kw.kind == TokKind.indent || kw.kind == TokKind.dedent) = false := by
          simp [hkw]
        have h2 : (!(kw.kind == TokKind.nameT
            && (kw.text == "if" || kw.text == "elif" || kw.text == "while"))) = false := by
          rcases hkwt with h | h | h <;> simp [hkw, h]
        have h3 : (!(lp.kind == TokKind.op && lp.text == "(")) = false := by
          simp [hlp, hlpt]
        simp only [h1, h2, h3, hi0, Bool.false_eq_true, if_false, if_true]
      · have hi0f : (m.kind == TokKind.op && m.text == ")") = false := by
          rcases hb : (m.kind == TokKind.op && m.text == ")") with _ | _
          · rfl
          · exact absurd hb hi0
        rw [List.nil_append]
        rw [rpStart_enter kw lp m rest hkw hkwt hlp hlpt hi0f]
        rw [rpInner_lparen kw.startP.1 kw.text lp.startP lp (m :: rest) hlp hlpt hlpl]
        exact hml 1
    · have hi0 := innerScan_head kw.startP.1 i0 pre2 lv hscan
      rw [show (i0 :: pre2) ++ m :: rest = i0 :: (pre2 ++ m :: rest) from rfl]
      rw [rpStart_enter kw lp i0 (pre2 ++ m :: rest) hkw hkwt hlp hlpt hi0]
      rw [rpInner_lparen kw.startP.1 kw.text lp.startP lp (i0 :: (pre2 ++ m :: rest))
        hlp hlpt hlpl]
      rw [show i0 :: (pre2 ++ m :: rest) = (i0 :: pre2) ++ (m :: rest) from rfl]
      rw [rpInner_scan kw.startP.1 kw.text lp.startP (i0 :: pre2) 1 lv hscan (m :: rest)]
      exact hml lv
end Eyeo
